import Mathlib

/-!
Formal model of the platform connector layer of the Malachi bot
(`src/platforms/base.py`, `src/platforms/devnetwork.py`,
`src/platforms/discord.py`, `src/platforms/telegram.py`).

Python strings are modelled as `List Char`, wall-clock timestamps as `ℚ`,
and network I/O outcomes as explicit environment records.  Each definition
is a direct translation of the corresponding Python function; the loops of
the source are embedded with explicit fuel where Python relies on general
recursion, and asynchronous code is embedded as a sequence of observable
states at its suspension points.
-/

/- ### Python string helpers -/

/-- Whitespace predicate matching Python `str.isspace` / `str.lstrip` on the
ASCII whitespace characters that occur in this code base. -/
def pyIsSpace (c : Char) : Bool :=
  c = ' ' || c = '\t' || c = '\n' || c = '\r' || c = '\x0B' || c = '\x0C'

/-- Python `text.rfind(ch, 0, stop)`: the greatest index `i < stop` with
`text[i] = ch`, as an `Option` (`none` for Python's `-1`). -/
def pyRfind (ch : Char) : List Char → Nat → Option Nat
  | [], _ => none
  | _ :: _, 0 => none
  | c :: cs, stop + 1 =>
    match pyRfind ch cs stop with
    | some i => some (i + 1)
    | none => if c = ch then some 0 else none

/-- Python `text.lstrip()` (restricted to the ASCII whitespace of `pyIsSpace`). -/
def pyLstrip (cs : List Char) : List Char := cs.dropWhile pyIsSpace

/- ### `_chunk_message` (discord.py lines 306-329, telegram.py lines 507-527;
the two copies are textually identical up to the default limit). -/

/-- The `split_at` computation of one iteration of the `_chunk_message` loop:
last newline before the limit, else last space, else a hard cut at `maxLen`. -/
def chunkSplitAt (maxLen : Nat) (text : List Char) : Nat :=
  match pyRfind '\n' text maxLen with
  | some i => i
  | none =>
    match pyRfind ' ' text maxLen with
    | some i => i
    | none => maxLen

/-- The remaining text after one iteration of the `_chunk_message` loop:
`text[split_at:].lstrip()`. -/
def chunkRest (maxLen : Nat) (text : List Char) : List Char :=
  pyLstrip (text.drop (chunkSplitAt maxLen text))

/-- The `while text:` loop of `_chunk_message`, embedded with explicit fuel.
One unit of fuel is one loop iteration; `chunk_message` supplies
`text.length` fuel, which is proved sufficient below. -/
def chunkLoopF (maxLen : Nat) : Nat → List Char → List (List Char)
  | 0, _ => []
  | _ + 1, [] => []
  | fuel + 1, c :: cs =>
    if (c :: cs).length ≤ maxLen then [c :: cs]
    else (c :: cs).take (chunkSplitAt maxLen (c :: cs)) ::
      chunkLoopF maxLen fuel (chunkRest maxLen (c :: cs))

/-- `_chunk_message(text, max_length)`: a text within the limit is returned
as a single chunk, otherwise the splitting loop runs. -/
def chunk_message (text : List Char) (maxLen : Nat) : List (List Char) :=
  if text.length ≤ maxLen then [text] else chunkLoopF maxLen text.length text

/-- Companion to `chunkLoopF` that also returns, next to each chunk, the
whitespace run that the source's `lstrip()` removed right after it (the
"original separator" between that chunk and the rest of the text). -/
def chunkLoopSep (maxLen : Nat) : Nat → List Char → List (List Char × List Char)
  | 0, _ => []
  | _ + 1, [] => []
  | fuel + 1, c :: cs =>
    if (c :: cs).length ≤ maxLen then [(c :: cs, [])]
    else
      ((c :: cs).take (chunkSplitAt maxLen (c :: cs)),
        ((c :: cs).drop (chunkSplitAt maxLen (c :: cs))).takeWhile pyIsSpace) ::
      chunkLoopSep maxLen fuel (chunkRest maxLen (c :: cs))

/-- `chunk_message` together with the separators dropped by its `lstrip()` calls. -/
def chunk_message_seps (text : List Char) (maxLen : Nat) : List (List Char × List Char) :=
  if text.length ≤ maxLen then [(text, [])] else chunkLoopSep maxLen text.length text

/-- Concatenation of every chunk followed by its original separator. -/
def joinChunks (l : List (List Char × List Char)) : List Char :=
  l.foldr (fun p acc => p.1 ++ p.2 ++ acc) []

/- ### Lemmas about the chunking loop -/

lemma pyRfind_lt_stop {ch : Char} :
    ∀ (cs : List Char) (stop i : Nat), pyRfind ch cs stop = some i → i < stop := by
  intro cs
  induction cs with
  | nil => intro stop i h; simp [pyRfind] at h
  | cons c cs ih =>
    intro stop i h
    cases stop with
    | zero => simp [pyRfind] at h
    | succ s =>
      cases hrec : pyRfind ch cs s with
      | some j =>
        simp [pyRfind, hrec] at h
        have := ih s j hrec
        omega
      | none =>
        by_cases hc : c = ch
        · simp [pyRfind, hrec, hc] at h
          omega
        · simp [pyRfind, hrec, hc] at h

lemma pyRfind_zero_eq {ch c : Char} {cs : List Char} {stop : Nat}
    (h : pyRfind ch (c :: cs) stop = some 0) : c = ch := by
  cases stop with
  | zero => simp [pyRfind] at h
  | succ s =>
    cases hrec : pyRfind ch cs s with
    | some j => simp [pyRfind, hrec] at h
    | none =>
      by_cases hc : c = ch
      · exact hc
      · simp [pyRfind, hrec, hc] at h

lemma chunkSplitAt_le (maxLen : Nat) (text : List Char) :
    chunkSplitAt maxLen text ≤ maxLen := by
  unfold chunkSplitAt
  cases h1 : pyRfind '\n' text maxLen with
  | some i => exact Nat.le_of_lt (pyRfind_lt_stop text maxLen i h1)
  | none =>
    cases h2 : pyRfind ' ' text maxLen with
    | some i => simp only; exact Nat.le_of_lt (pyRfind_lt_stop text maxLen i h2)
    | none => simp only; exact Nat.le_refl maxLen

lemma chunkSplitAt_zero_space {maxLen : Nat} {c : Char} {cs : List Char}
    (hm : 1 ≤ maxLen) (h : chunkSplitAt maxLen (c :: cs) = 0) : pyIsSpace c = true := by
  unfold chunkSplitAt at h
  cases h1 : pyRfind '\n' (c :: cs) maxLen with
  | some i =>
    simp only [h1] at h
    subst h
    have := pyRfind_zero_eq h1
    subst this
    rfl
  | none =>
    simp only [h1] at h
    cases h2 : pyRfind ' ' (c :: cs) maxLen with
    | some i =>
      simp only [h2] at h
      subst h
      have := pyRfind_zero_eq h2
      subst this
      rfl
    | none =>
      simp only [h2] at h
      omega

lemma length_dropWhile_le' (p : Char → Bool) (l : List Char) :
    (List.dropWhile p l).length ≤ l.length := by
  induction l with
  | nil => simp
  | cons c cs ih =>
    by_cases hc : p c
    · rw [List.dropWhile_cons_of_pos hc]
      exact Nat.le_succ_of_le ih
    · rw [List.dropWhile_cons_of_neg hc]

lemma dropWhile_head_neg (p : Char → Bool) :
    ∀ (l : List Char) (c : Char) (cs : List Char),
      List.dropWhile p l = c :: cs → p c = false := by
  intro l
  induction l with
  | nil => intro c cs h; simp at h
  | cons a as ih =>
    intro c cs h
    by_cases ha : p a
    · rw [List.dropWhile_cons_of_pos ha] at h
      exact ih c cs h
    · rw [List.dropWhile_cons_of_neg ha] at h
      cases h
      simpa using ha

lemma chunkRest_length_lt {maxLen : Nat} {text : List Char}
    (hm : 1 ≤ maxLen) (hl : maxLen < text.length) :
    (chunkRest maxLen text).length < text.length := by
  cases text with
  | nil => simp at hl
  | cons c cs =>
    unfold chunkRest pyLstrip
    rcases Nat.eq_zero_or_pos (chunkSplitAt maxLen (c :: cs)) with h0 | hpos
    · have hsp : pyIsSpace c = true := chunkSplitAt_zero_space hm h0
      rw [h0]
      simp only [List.drop_zero]
      rw [List.dropWhile_cons_of_pos hsp]
      have := length_dropWhile_le' pyIsSpace cs
      simp only [List.length_cons]
      omega
    · have h1 := length_dropWhile_le' pyIsSpace ((c :: cs).drop (chunkSplitAt maxLen (c :: cs)))
      have h2 : ((c :: cs).drop (chunkSplitAt maxLen (c :: cs))).length
          = (c :: cs).length - chunkSplitAt maxLen (c :: cs) := List.length_drop _ _
      have h3 : 0 < (c :: cs).length := by simp
      omega

lemma chunkLoopF_fuel_eq (maxLen : Nat) (hm : 1 ≤ maxLen) :
    ∀ (n : Nat) (text : List Char), text.length ≤ n →
      ∀ (f1 f2 : Nat), text.length ≤ f1 → text.length ≤ f2 →
        chunkLoopF maxLen f1 text = chunkLoopF maxLen f2 text := by
  intro n
  induction n with
  | zero =>
    intro text hn f1 f2 _ _
    have : text = [] := List.length_eq_zero.mp (Nat.le_zero.mp hn)
    subst this
    cases f1 <;> cases f2 <;> rfl
  | succ n ih =>
    intro text hn f1 f2 h1 h2
    cases text with
    | nil => cases f1 <;> cases f2 <;> rfl
    | cons c cs =>
      have hl : (c :: cs).length = cs.length + 1 := by simp
      cases f1 with
      | zero => rw [hl] at h1; omega
      | succ k1 =>
        cases f2 with
        | zero => rw [hl] at h2; omega
        | succ k2 =>
          by_cases hle : (c :: cs).length ≤ maxLen
          · have hle' : cs.length + 1 ≤ maxLen := by simpa using hle
            simp [chunkLoopF, hle']
          · simp only [chunkLoopF, if_neg hle]
            have hlt : maxLen < (c :: cs).length := Nat.lt_of_not_le hle
            have hrest := chunkRest_length_lt hm hlt
            have hr1 : (chunkRest maxLen (c :: cs)).length ≤ k1 := by
              rw [hl] at h1; omega
            have hr2 : (chunkRest maxLen (c :: cs)).length ≤ k2 := by
              rw [hl] at h2; omega
            have hrn : (chunkRest maxLen (c :: cs)).length ≤ n := by
              rw [hl] at hn; omega
            rw [ih (chunkRest maxLen (c :: cs)) hrn k1 k2 hr1 hr2]

lemma joinChunks_nil : joinChunks [] = [] := rfl

lemma joinChunks_cons (p : List Char × List Char) (l : List (List Char × List Char)) :
    joinChunks (p :: l) = p.1 ++ p.2 ++ joinChunks l := rfl

lemma chunkLoopSep_fst (maxLen : Nat) :
    ∀ (fuel : Nat) (text : List Char),
      (chunkLoopSep maxLen fuel text).map Prod.fst = chunkLoopF maxLen fuel text := by
  intro fuel
  induction fuel with
  | zero => intro text; cases text <;> rfl
  | succ k ih =>
    intro text
    cases text with
    | nil => rfl
    | cons c cs =>
      by_cases hle : (c :: cs).length ≤ maxLen
      · simp only [chunkLoopSep, chunkLoopF, if_pos hle, List.map_cons, List.map_nil]
      · simp only [chunkLoopSep, chunkLoopF, if_neg hle, List.map_cons, ih]

lemma chunkLoopSep_join (maxLen : Nat) (hm : 1 ≤ maxLen) :
    ∀ (n : Nat) (text : List Char), text.length ≤ n →
      ∀ (fuel : Nat), text.length ≤ fuel →
        joinChunks (chunkLoopSep maxLen fuel text) = text := by
  intro n
  induction n with
  | zero =>
    intro text hn fuel _
    have : text = [] := List.length_eq_zero.mp (Nat.le_zero.mp hn)
    subst this
    cases fuel <;> rfl
  | succ n ih =>
    intro text hn fuel hf
    cases text with
    | nil => cases fuel <;> rfl
    | cons c cs =>
      cases fuel with
      | zero => simp at hf
      | succ k =>
        by_cases hle : (c :: cs).length ≤ maxLen
        · simp only [chunkLoopSep, if_pos hle, joinChunks_cons, joinChunks_nil]
          simp
        · simp only [chunkLoopSep, if_neg hle, joinChunks_cons]
          have hlt : maxLen < (c :: cs).length := Nat.lt_of_not_le hle
          have hrest := chunkRest_length_lt hm hlt
          have hrn : (chunkRest maxLen (c :: cs)).length ≤ n := by
            have : (c :: cs).length ≤ n + 1 := hn
            omega
          have hrk : (chunkRest maxLen (c :: cs)).length ≤ k := by
            have : (c :: cs).length ≤ k + 1 := hf
            omega
          rw [ih (chunkRest maxLen (c :: cs)) hrn k hrk]
          unfold chunkRest pyLstrip
          rw [List.append_assoc, List.takeWhile_append_dropWhile, List.take_append_drop]

lemma chunkLoopSep_sep_space (maxLen : Nat) :
    ∀ (fuel : Nat) (text : List Char) (p : List Char × List Char),
      p ∈ chunkLoopSep maxLen fuel text → ∀ c ∈ p.2, pyIsSpace c = true := by
  intro fuel
  induction fuel with
  | zero => intro text p hp; cases text <;> simp [chunkLoopSep] at hp
  | succ k ih =>
    intro text p hp c hc
    cases text with
    | nil => simp [chunkLoopSep] at hp
    | cons a as =>
      by_cases hle : (a :: as).length ≤ maxLen
      · simp only [chunkLoopSep, if_pos hle, List.mem_singleton] at hp
        subst hp
        simp at hc
      · simp only [chunkLoopSep, if_neg hle, List.mem_cons] at hp
        rcases hp with hp | hp
        · subst hp
          exact List.mem_takeWhile_imp hc
        · exact ih _ p hp c hc

lemma chunkLoopF_length_le (maxLen : Nat) :
    ∀ (fuel : Nat) (text : List Char) (ch : List Char),
      ch ∈ chunkLoopF maxLen fuel text → ch.length ≤ maxLen := by
  intro fuel
  induction fuel with
  | zero => intro text ch h; cases text <;> simp [chunkLoopF] at h
  | succ k ih =>
    intro text ch h
    cases text with
    | nil => simp [chunkLoopF] at h
    | cons c cs =>
      by_cases hle : (c :: cs).length ≤ maxLen
      · simp only [chunkLoopF, if_pos hle, List.mem_singleton] at h
        subst h
        exact hle
      · simp only [chunkLoopF, if_neg hle, List.mem_cons] at h
        rcases h with h | h
        · subst h
          have hs := chunkSplitAt_le maxLen (c :: cs)
          rw [List.length_take]
          omega
        · exact ih _ ch h

lemma chunkLoopF_ne_nil_of_head (maxLen : Nat) (hm : 1 ≤ maxLen) :
    ∀ (fuel : Nat) (text : List Char),
      (∀ c cs, text = c :: cs → pyIsSpace c = false) →
      ∀ ch ∈ chunkLoopF maxLen fuel text, ch ≠ [] := by
  intro fuel
  induction fuel with
  | zero => intro text _ ch h; cases text <;> simp [chunkLoopF] at h
  | succ k ih =>
    intro text hhead ch h
    cases text with
    | nil => simp [chunkLoopF] at h
    | cons c cs =>
      by_cases hle : (c :: cs).length ≤ maxLen
      · simp only [chunkLoopF, if_pos hle, List.mem_singleton] at h
        subst h
        simp
      · simp only [chunkLoopF, if_neg hle, List.mem_cons] at h
        rcases h with h | h
        · subst h
          have hpos : 0 < chunkSplitAt maxLen (c :: cs) := by
            rcases Nat.eq_zero_or_pos (chunkSplitAt maxLen (c :: cs)) with h0 | hp
            · have hsp := chunkSplitAt_zero_space hm h0
              rw [hhead c cs rfl] at hsp
              cases hsp
            · exact hp
          cases hs : chunkSplitAt maxLen (c :: cs) with
          | zero => omega
          | succ m => simp
        · apply ih (chunkRest maxLen (c :: cs)) _ ch h
          intro c' cs' hr
          unfold chunkRest pyLstrip at hr
          exact dropWhile_head_neg pyIsSpace _ c' cs' hr

lemma chunkLoopF_drop_one_ne_nil (maxLen : Nat) (hm : 1 ≤ maxLen) :
    ∀ (fuel : Nat) (text : List Char),
      ∀ ch ∈ (chunkLoopF maxLen fuel text).drop 1, ch ≠ [] := by
  intro fuel text ch h
  cases fuel with
  | zero => cases text <;> simp [chunkLoopF] at h
  | succ k =>
    cases text with
    | nil => simp [chunkLoopF] at h
    | cons c cs =>
      by_cases hle : (c :: cs).length ≤ maxLen
      · have hle' : cs.length + 1 ≤ maxLen := by simpa using hle
        simp [chunkLoopF, hle'] at h
      · simp only [chunkLoopF, if_neg hle, List.drop_succ_cons, List.drop_zero] at h
        apply chunkLoopF_ne_nil_of_head maxLen hm k (chunkRest maxLen (c :: cs)) _ ch h
        intro c' cs' hr
        unfold chunkRest pyLstrip at hr
        exact dropWhile_head_neg pyIsSpace _ c' cs' hr

/- ### Claim theorems about `_chunk_message` -/

/-- C1: for every input text and every `max_length ≥ 1`, re-joining the
chunks produced by `_chunk_message` with their original separators (the
whitespace runs removed by its `lstrip()` calls) yields exactly the original
text; every such separator consists of whitespace only, so no non-separator
character is dropped, and the companion list projects exactly to the chunk
list `_chunk_message` returns. -/
theorem chunk_message_rejoin (text : List Char) (maxLen : Nat) (hm : 1 ≤ maxLen) :
    joinChunks (chunk_message_seps text maxLen) = text
    ∧ (chunk_message_seps text maxLen).map Prod.fst = chunk_message text maxLen
    ∧ (∀ p ∈ chunk_message_seps text maxLen, ∀ c ∈ p.2, pyIsSpace c = true) := by
  refine ⟨?_, ?_, ?_⟩
  · unfold chunk_message_seps
    by_cases hle : text.length ≤ maxLen
    · rw [if_pos hle]
      simp [joinChunks]
    · rw [if_neg hle]
      exact chunkLoopSep_join maxLen hm text.length text le_rfl text.length le_rfl
  · unfold chunk_message_seps chunk_message
    by_cases hle : text.length ≤ maxLen
    · rw [if_pos hle, if_pos hle]
      rfl
    · rw [if_neg hle, if_neg hle]
      exact chunkLoopSep_fst maxLen text.length text
  · unfold chunk_message_seps
    by_cases hle : text.length ≤ maxLen
    · rw [if_pos hle]
      intro p hp c hc
      simp only [List.mem_singleton] at hp
      subst hp
      simp at hc
    · rw [if_neg hle]
      exact chunkLoopSep_sep_space maxLen text.length text

theorem chunk_message_rejoin_witness :
    1 ≤ 3
    ∧ joinChunks (chunk_message_seps "abc de\nfgh ij".toList 3) = "abc de\nfgh ij".toList
    ∧ (chunk_message_seps "abc de\nfgh ij".toList 3).map Prod.fst
        = chunk_message "abc de\nfgh ij".toList 3 :=
  ⟨by decide,
    (chunk_message_rejoin "abc de\nfgh ij".toList 3 (by decide)).1,
    (chunk_message_rejoin "abc de\nfgh ij".toList 3 (by decide)).2.1⟩

/-- C8 counterexample: for the input `" aa"` with `max_length = 1` the code
produces the chunk list `["", "a", "a"]`, whose first chunk is empty — the
claim that every chunk returned by `_chunk_message` is non-empty is false.
(The split index found for the leading space is 0, so `text[:0] = ""` is
appended.)  The empty input is a second counterexample: `""` yields `[""]`. -/
theorem chunk_message_empty_chunk_counterexample :
    chunk_message " aa".toList 1 = [[], ['a'], ['a']]
    ∧ ([] : List Char) ∈ chunk_message " aa".toList 1
    ∧ chunk_message "".toList 5 = [[]] := by
  refine ⟨by decide, by decide, by decide⟩

/-- C8 (amended): for every input text and every `max_length ≥ 1`, every
chunk returned by `_chunk_message` has length at most `max_length`, and a
text of length at most `max_length` yields exactly one chunk, the text
itself.  Every chunk after the first is non-empty; the first chunk can be
empty (exactly when the text is empty or starts with a whitespace character
at which the loop splits), and when the text does not start with whitespace
every chunk is non-empty. -/
theorem chunk_message_bounds (text : List Char) (maxLen : Nat) (hm : 1 ≤ maxLen) :
    (∀ ch ∈ chunk_message text maxLen, ch.length ≤ maxLen)
    ∧ (text.length ≤ maxLen → chunk_message text maxLen = [text])
    ∧ (∀ ch ∈ (chunk_message text maxLen).drop 1, ch ≠ [])
    ∧ (∀ c cs, text = c :: cs → pyIsSpace c = false →
        ∀ ch ∈ chunk_message text maxLen, ch ≠ []) := by
  refine ⟨?_, ?_, ?_, ?_⟩
  · intro ch h
    unfold chunk_message at h
    by_cases hle : text.length ≤ maxLen
    · rw [if_pos hle] at h
      simp only [List.mem_singleton] at h
      subst h
      exact hle
    · rw [if_neg hle] at h
      exact chunkLoopF_length_le maxLen text.length text ch h
  · intro hle
    unfold chunk_message
    rw [if_pos hle]
  · intro ch h
    unfold chunk_message at h
    by_cases hle : text.length ≤ maxLen
    · rw [if_pos hle] at h
      simp at h
    · rw [if_neg hle] at h
      exact chunkLoopF_drop_one_ne_nil maxLen hm text.length text ch h
  · intro c cs htext hhead ch h
    unfold chunk_message at h
    by_cases hle : text.length ≤ maxLen
    · rw [if_pos hle] at h
      simp only [List.mem_singleton] at h
      subst h
      rw [htext]
      simp
    · rw [if_neg hle] at h
      apply chunkLoopF_ne_nil_of_head maxLen hm text.length text _ ch h
      intro c' cs' h'
      rw [htext] at h'
      cases h'
      exact hhead

theorem chunk_message_bounds_witness :
    1 ≤ 2
    ∧ (∀ ch ∈ chunk_message "ab cd".toList 2, ch.length ≤ 2)
    ∧ (∀ ch ∈ (chunk_message "ab cd".toList 2).drop 1, ch ≠ []) :=
  ⟨by decide,
    (chunk_message_bounds "ab cd".toList 2 (by decide)).1,
    (chunk_message_bounds "ab cd".toList 2 (by decide)).2.2.1⟩

/-- C10: `_chunk_message` terminates for every input text and every
`max_length ≥ 1`.  The loop is embedded with explicit fuel; this theorem
shows any fuel of at least `text.length` computes the same chunk list (so
the recursion is total), because each loop iteration strictly shortens the
remaining text: a hard cut removes `max_length ≥ 1` characters, and a split
found at index 0 is necessarily at a whitespace character that the
following `lstrip` removes (`chunkRest_length_lt`). -/
theorem chunk_message_terminates (text : List Char) (maxLen : Nat) (hm : 1 ≤ maxLen) :
    (∀ fuel, text.length ≤ fuel →
        chunkLoopF maxLen fuel text = chunkLoopF maxLen text.length text)
    ∧ (maxLen < text.length → (chunkRest maxLen text).length < text.length)
    ∧ (maxLen < text.length → chunk_message text maxLen = chunkLoopF maxLen text.length text) := by
  refine ⟨?_, ?_, ?_⟩
  · intro fuel hf
    exact chunkLoopF_fuel_eq maxLen hm text.length text le_rfl fuel text.length hf le_rfl
  · intro h
    exact chunkRest_length_lt hm h
  · intro h
    unfold chunk_message
    rw [if_neg (Nat.not_le_of_lt h)]

theorem chunk_message_terminates_witness :
    ("ab cd ef".toList).length ≤ 50
    ∧ 1 ≤ 2
    ∧ chunkLoopF 2 50 "ab cd ef".toList = chunkLoopF 2 ("ab cd ef".toList).length "ab cd ef".toList
    ∧ (chunkRest 2 "ab cd ef".toList).length < ("ab cd ef".toList).length :=
  ⟨by decide, by decide,
    (chunk_message_terminates "ab cd ef".toList 2 (by decide)).1 50 (by decide),
    (chunk_message_terminates "ab cd ef".toList 2 (by decide)).2.1 (by decide)⟩

/- ### `check_rate_limit` (base.py lines 58-81) -/

/-- The pruning step of `check_rate_limit`: keep the timestamps `t` with
`now - t < window_seconds` (the list comprehension at base.py lines 72-75). -/
def rlPrune (times : List ℚ) (window_seconds now : ℚ) : List ℚ :=
  times.filter (fun t => now - t < window_seconds)

/-- `check_rate_limit(user_id, max_messages, window_seconds)` evaluated at
wall-clock time `now`.  The per-user `defaultdict` of `RateLimitState`
records is modelled as a total function from user id to timestamp list
(default `[]`).  The pruned list is stored back, then the admission check
appends `now` and returns `True` only when fewer than `max_messages`
timestamps remain in the window. -/
def check_rate_limit (rl : String → List ℚ) (user_id : String) (max_messages : Nat)
    (window_seconds now : ℚ) : Bool × (String → List ℚ) :=
  let pruned := rlPrune (rl user_id) window_seconds now
  if max_messages ≤ pruned.length then
    (false, Function.update rl user_id pruned)
  else
    (true, Function.update rl user_id (pruned ++ [now]))

/-- C3: `check_rate_limit` returns `True` and records `now` exactly when
fewer than `max_messages` previously recorded timestamps lie within the
trailing window; otherwise it returns `False` without recording (only the
pruning is stored).  Any other identity's list is untouched.  After exactly
`max_messages` admissions within the window the next call returns `False`,
and once the oldest admission has aged out of the window (the others still
inside) a call returns `True` again. -/
theorem check_rate_limit_spec (rl : String → List ℚ) (u v : String) (m : Nat)
    (w now : ℚ) (hv : v ≠ u) :
    ((check_rate_limit rl u m w now).1 = true ↔ (rlPrune (rl u) w now).length < m)
    ∧ ((check_rate_limit rl u m w now).1 = true →
        (check_rate_limit rl u m w now).2 u = rlPrune (rl u) w now ++ [now])
    ∧ ((check_rate_limit rl u m w now).1 = false →
        (check_rate_limit rl u m w now).2 u = rlPrune (rl u) w now)
    ∧ (check_rate_limit rl u m w now).2 v = rl v
    ∧ ((rlPrune (rl u) w now).length = m → (check_rate_limit rl u m w now).1 = false)
    ∧ (∀ t0 rest, rl u = t0 :: rest → rest.length + 1 = m → w ≤ now - t0 →
        (∀ t ∈ rest, now - t < w) → (check_rate_limit rl u m w now).1 = true) := by
  by_cases hm : m ≤ (rlPrune (rl u) w now).length
  · refine ⟨?_, ?_, ?_, ?_, ?_, ?_⟩
    · simp [check_rate_limit, hm]
    · simp [check_rate_limit, hm]
    · simp [check_rate_limit, hm]
    · simp [check_rate_limit, hm]
      exact Function.update_noteq hv _ rl
    · intro _
      simp [check_rate_limit, hm]
    · intro t0 rest hlist hlen hold hfresh
      exfalso
      have hp : rlPrune (rl u) w now = rest := by
        unfold rlPrune
        rw [hlist]
        rw [List.filter_cons_of_neg (by simpa using not_lt.mpr hold)]
        exact List.filter_eq_self.mpr (fun t ht => by simpa using hfresh t ht)
      rw [hp] at hm
      omega
  · refine ⟨?_, ?_, ?_, ?_, ?_, ?_⟩
    · simp [check_rate_limit, hm]
      omega
    · simp [check_rate_limit, hm]
    · simp [check_rate_limit, hm]
    · simp [check_rate_limit, hm]
      exact Function.update_noteq hv _ rl
    · intro heq
      exact absurd (le_of_eq heq.symm) hm
    · intro _ _ _ _ _ _
      simp [check_rate_limit, hm]

theorem check_rate_limit_spec_witness :
    "bob" ≠ "alice"
    ∧ ((rlPrune ((fun s => if s = "alice" then [(0 : ℚ), 1] else []) "alice") 10 3).length = 2 →
        (check_rate_limit (fun s => if s = "alice" then [(0 : ℚ), 1] else []) "alice" 2 10 3).1 = false)
    ∧ (check_rate_limit (fun s => if s = "alice" then [(0 : ℚ), 1] else []) "alice" 2 10 3).2 "bob"
        = (fun s => if s = "alice" then [(0 : ℚ), 1] else []) "bob" :=
  ⟨by decide,
    (check_rate_limit_spec (fun s => if s = "alice" then [(0 : ℚ), 1] else [])
      "alice" "bob" 2 10 3 (by decide)).2.2.2.2.1,
    (check_rate_limit_spec (fun s => if s = "alice" then [(0 : ℚ), 1] else [])
      "alice" "bob" 2 10 3 (by decide)).2.2.2.1⟩

/- ### `_listen_loop` (devnetwork.py lines 123-151) -/

/-- One inbound WebSocket frame as seen by `_listen_loop`.  A `text` frame
carries whether handling it (`json.loads` + `_handle_ws_message`) raises an
exception; `closeFrame`/`errFrame` are the `CLOSED`/`CLOSE` and `ERROR`
message types; `cancelFrame` stands for `asyncio.CancelledError` raised at
the `receive()` await. -/
inductive WSFrame where
  | text : Bool → WSFrame
  | closeFrame : WSFrame
  | errFrame : WSFrame
  | cancelFrame : WSFrame
deriving DecidableEq, Repr

/-- How the `while` of `_listen_loop` was exited. -/
inductive ListenExit where
  | loopCondFalse : ListenExit
  | closedBreak : ListenExit
  | errorBreak : ListenExit
  | handlerException : ListenExit
  | cancelledReturn : ListenExit
deriving DecidableEq, Repr

/-- The `while self._running and self._ws and not self._ws.closed:` loop of
`_listen_loop`, applied to the sequence of frames the socket will deliver
(an exhausted sequence models the loop condition turning false).  Returns
how many frames were received and how the loop exited.  A `text` frame
whose handler raises hits `except Exception: logger.error(...); break`. -/
def listenLoop : List WSFrame → Nat × ListenExit
  | [] => (0, ListenExit.loopCondFalse)
  | WSFrame.text raises :: rest =>
    if raises then (1, ListenExit.handlerException)
    else ((listenLoop rest).1 + 1, (listenLoop rest).2)
  | WSFrame.closeFrame :: _ => (1, ListenExit.closedBreak)
  | WSFrame.errFrame :: _ => (1, ListenExit.errorBreak)
  | WSFrame.cancelFrame :: _ => (1, ListenExit.cancelledReturn)

/-- The tail of `_listen_loop` (lines 150-151): after the loop, a reconnect
task is spawned iff `self._running` is still set — except on the
`CancelledError` path, which returns from inside the `except` without
reaching that code. -/
def listenSpawnsReconnect (running : Bool) (e : ListenExit) : Bool :=
  running && !(e == ListenExit.cancelledReturn)

/-- C2 counterexample: deliver a frame whose handler raises, followed by a
perfectly good frame.  The exception is caught and logged, but the
`except Exception` arm of `_listen_loop` executes `break`: only 1 frame is
consumed, the loop exits with the handler exception (and, being still
running, spawns a reconnect) — it does not continue consuming the second
frame as the claim states. -/
theorem listen_loop_break_counterexample :
    listenLoop [WSFrame.text true, WSFrame.text false] = (1, ListenExit.handlerException)
    ∧ (listenLoop [WSFrame.text true, WSFrame.text false]).1 ≠ 2
    ∧ listenSpawnsReconnect true ListenExit.handlerException = true := by
  refine ⟨rfl, by decide, rfl⟩

/-- C2 (amended): if handling one inbound frame raises inside the listen
loop, the exception is caught (it never propagates out of the loop body)
and the loop terminates at that frame: every earlier well-handled frame was
consumed, the failing frame is the last one consumed, subsequent frames are
not consumed, and — the connector still running — a reconnect task is
spawned, so a single frame's handler failure ends this listen loop rather
than crashing the process. -/
theorem listen_loop_handler_fault_breaks (pre post : List WSFrame)
    (hpre : ∀ f ∈ pre, f = WSFrame.text false) :
    listenLoop (pre ++ WSFrame.text true :: post) = (pre.length + 1, ListenExit.handlerException)
    ∧ listenSpawnsReconnect true ListenExit.handlerException = true := by
  refine ⟨?_, rfl⟩
  induction pre with
  | nil => rfl
  | cons f fs ih =>
    have hf : f = WSFrame.text false := hpre f (List.mem_cons_self f fs)
    subst hf
    have hrest := ih (fun g hg => hpre g (List.mem_cons_of_mem _ hg))
    have hstep : listenLoop (WSFrame.text false :: (fs ++ WSFrame.text true :: post))
        = ((listenLoop (fs ++ WSFrame.text true :: post)).1 + 1,
            (listenLoop (fs ++ WSFrame.text true :: post)).2) := rfl
    rw [List.cons_append, hstep, hrest]
    simp

theorem listen_loop_handler_fault_breaks_witness :
    (∀ f ∈ [WSFrame.text false, WSFrame.text false], f = WSFrame.text false)
    ∧ listenLoop ([WSFrame.text false, WSFrame.text false] ++ WSFrame.text true :: [WSFrame.closeFrame])
        = (3, ListenExit.handlerException) :=
  ⟨by decide,
    (listen_loop_handler_fault_breaks [WSFrame.text false, WSFrame.text false]
      [WSFrame.closeFrame] (by decide)).1⟩

/- ### `_reconnect` (devnetwork.py lines 153-180) -/

/-- The delay update after a failed attempt: `delay = min(delay * 2, max_delay)`
with `max_delay = 120` (line 180). -/
def nextDelay (delay : Nat) : Nat := min (delay * 2) 120

/-- The delay slept before the `n`-th reconnect attempt (0-based): starts at
the base delay 5 (line 162) and doubles, capped at 120, after each failure. -/
def delaySeq : Nat → Nat
  | 0 => 5
  | n + 1 => nextDelay (delaySeq n)

/-- How the embedded `_reconnect` loop ended. -/
inductive ReconnectExit where
  | stoppedFlag : ReconnectExit
  | reconnected : ReconnectExit
  | fuelOut : ReconnectExit
deriving DecidableEq, Repr

/-- The `while self._running:` loop of `_reconnect`, embedded with fuel (the
source retries without bound; `fuelOut` marks fuel exhaustion, not a source
behaviour).  `running` gives the value of `self._running` at each of the two
checks of an iteration (the `while` test and the post-sleep test, numbered
`2*attempt` and `2*attempt+1`), `connectOk` whether the `attempt`-th
`self.connect()` call succeeds.  Returns the list of delays slept and the
exit cause. -/
def reconnectLoop (running : Nat → Bool) (connectOk : Nat → Bool) :
    Nat → Nat → Nat → List Nat × ReconnectExit
  | _, _, 0 => ([], ReconnectExit.fuelOut)
  | delay, attempt, fuel + 1 =>
    if running (2 * attempt) = false then ([], ReconnectExit.stoppedFlag)
    else if running (2 * attempt + 1) = false then ([delay], ReconnectExit.stoppedFlag)
    else if connectOk attempt = true then ([delay], ReconnectExit.reconnected)
    else
      ((reconnectLoop running connectOk (nextDelay delay) (attempt + 1) fuel).1.cons delay,
        (reconnectLoop running connectOk (nextDelay delay) (attempt + 1) fuel).2)

lemma delaySeq_le_cap : ∀ n, delaySeq n ≤ 120 := by
  intro n
  cases n with
  | zero => decide
  | succ k => exact Nat.min_le_right _ _

lemma delaySeq_mono (n : Nat) : delaySeq n ≤ delaySeq (n + 1) := by
  show delaySeq n ≤ nextDelay (delaySeq n)
  unfold nextDelay
  have h1 : delaySeq n ≤ delaySeq n * 2 := by omega
  exact le_min h1 (delaySeq_le_cap n)

lemma reconnectLoop_delays_getD (running connectOk : Nat → Bool) :
    ∀ (fuel k i : Nat),
      i < (reconnectLoop running connectOk (delaySeq k) k fuel).1.length →
      (reconnectLoop running connectOk (delaySeq k) k fuel).1.getD i 0 = delaySeq (k + i) := by
  intro fuel
  induction fuel with
  | zero => intro k i hi; simp [reconnectLoop] at hi
  | succ f ih =>
    intro k i hi
    by_cases h1 : running (2 * k) = false
    · simp [reconnectLoop, h1] at hi
    · by_cases h2 : running (2 * k + 1) = false
      · simp only [reconnectLoop, if_neg h1, if_pos h2] at hi ⊢
        simp at hi
        subst hi
        simp
      · by_cases h3 : connectOk k = true
        · simp only [reconnectLoop, if_neg h1, if_neg h2, if_pos h3] at hi ⊢
          simp at hi
          subst hi
          simp
        · simp only [reconnectLoop, if_neg h1, if_neg h2, if_neg h3, List.cons] at hi ⊢
          cases i with
          | zero => simp
          | succ j =>
            simp only [List.length_cons] at hi
            have hj : j < (reconnectLoop running connectOk (nextDelay (delaySeq k)) (k + 1) f).1.length := by
              omega
            have := ih (k + 1) j (by
              show j < (reconnectLoop running connectOk (delaySeq (k + 1)) (k + 1) f).1.length
              exact hj)
            simp only [List.getD_cons_succ]
            show (reconnectLoop running connectOk (delaySeq (k + 1)) (k + 1) f).1.getD j 0
                = delaySeq (k + (j + 1))
            rw [this]
            congr 1
            omega

lemma reconnectLoop_delays_sorted (running connectOk : Nat → Bool) :
    ∀ (fuel k : Nat),
      List.Chain' (· ≤ ·) (reconnectLoop running connectOk (delaySeq k) k fuel).1
      ∧ ∀ d ∈ (reconnectLoop running connectOk (delaySeq k) k fuel).1,
          delaySeq k ≤ d ∧ d ≤ 120 := by
  intro fuel
  induction fuel with
  | zero => intro k; simp [reconnectLoop]
  | succ f ih =>
    intro k
    by_cases h1 : running (2 * k) = false
    · simp [reconnectLoop, h1]
    · by_cases h2 : running (2 * k + 1) = false
      · simp [reconnectLoop, h1, h2, delaySeq_le_cap k]
      · by_cases h3 : connectOk k = true
        · simp [reconnectLoop, h1, h2, h3, delaySeq_le_cap k]
        · have ihk := ih (k + 1)
          simp only [reconnectLoop, if_neg h1, if_neg h2, if_neg h3, List.cons]
          constructor
          · apply List.Chain'.cons'
            · exact ihk.1
            · intro y hy
              have hmem := List.mem_of_mem_head? hy
              have := (ihk.2 y hmem).1
              calc delaySeq k ≤ delaySeq (k + 1) := delaySeq_mono k
                _ ≤ y := this
          · intro d hd
            rcases List.mem_cons.mp hd with hd | hd
            · subst hd
              exact ⟨le_rfl, delaySeq_le_cap k⟩
            · have := ihk.2 d hd
              exact ⟨le_trans (delaySeq_mono k) this.1, this.2⟩

lemma reconnectLoop_stop_only_flag (running connectOk : Nat → Bool) :
    ∀ (fuel delay attempt : Nat),
      (reconnectLoop running connectOk delay attempt fuel).2 = ReconnectExit.stoppedFlag →
      ∃ i, running i = false := by
  intro fuel
  induction fuel with
  | zero => intro delay attempt h; simp [reconnectLoop] at h
  | succ f ih =>
    intro delay attempt h
    by_cases h1 : running (2 * attempt) = false
    · exact ⟨2 * attempt, h1⟩
    · by_cases h2 : running (2 * attempt + 1) = false
      · exact ⟨2 * attempt + 1, h2⟩
      · by_cases h3 : connectOk attempt = true
        · simp [reconnectLoop, h1, h2, h3] at h
        · simp only [reconnectLoop, if_neg h1, if_neg h2, if_neg h3] at h
          exact ih (nextDelay delay) (attempt + 1) h

lemma reconnectLoop_retries_forever (running connectOk : Nat → Bool)
    (hrun : ∀ i, running i = true) (hfail : ∀ a, connectOk a = false) :
    ∀ (fuel delay attempt : Nat),
      (reconnectLoop running connectOk delay attempt fuel).2 = ReconnectExit.fuelOut
      ∧ (reconnectLoop running connectOk delay attempt fuel).1.length = fuel := by
  intro fuel
  induction fuel with
  | zero => intro delay attempt; simp [reconnectLoop]
  | succ f ih =>
    intro delay attempt
    have h1 : ¬ running (2 * attempt) = false := by simp [hrun]
    have h2 : ¬ running (2 * attempt + 1) = false := by simp [hrun]
    have h3 : ¬ connectOk attempt = true := by simp [hfail]
    simp only [reconnectLoop, if_neg h1, if_neg h2, if_neg h3, List.cons]
    have := ih (nextDelay delay) (attempt + 1)
    simp [this.1, this.2]

/-- C7: in the `_reconnect` loop the delay before the `i`-th retry is
`delaySeq i` — it starts at the fixed base delay 5 and doubles after every
failed attempt, capped at the maximum delay 120 — so successive slept
delays are non-decreasing and never exceed the cap; the loop stops with
`stoppedFlag` only when the running flag was observed clear, and while the
flag stays set and every connect attempt fails it keeps retrying (one sleep
per unit of fuel, i.e. without bound): clearing the flag is the only way to
stop retrying. -/
theorem reconnect_backoff_spec (running connectOk : Nat → Bool) (fuel : Nat) :
    (∀ i, i < (reconnectLoop running connectOk 5 0 fuel).1.length →
        (reconnectLoop running connectOk 5 0 fuel).1.getD i 0 = delaySeq i)
    ∧ List.Chain' (· ≤ ·) (reconnectLoop running connectOk 5 0 fuel).1
    ∧ (∀ d ∈ (reconnectLoop running connectOk 5 0 fuel).1, d ≤ 120)
    ∧ ((reconnectLoop running connectOk 5 0 fuel).2 = ReconnectExit.stoppedFlag →
        ∃ i, running i = false)
    ∧ ((∀ i, running i = true) → (∀ a, connectOk a = false) →
        (reconnectLoop running connectOk 5 0 fuel).2 = ReconnectExit.fuelOut
        ∧ (reconnectLoop running connectOk 5 0 fuel).1.length = fuel) := by
  have h5 : (5 : Nat) = delaySeq 0 := rfl
  refine ⟨?_, ?_, ?_, ?_, ?_⟩
  · intro i hi
    rw [h5] at hi ⊢
    have := reconnectLoop_delays_getD running connectOk fuel 0 i hi
    simpa using this
  · rw [h5]
    exact (reconnectLoop_delays_sorted running connectOk fuel 0).1
  · intro d hd
    rw [h5] at hd
    exact ((reconnectLoop_delays_sorted running connectOk fuel 0).2 d hd).2
  · exact reconnectLoop_stop_only_flag running connectOk fuel 5 0
  · intro hrun hfail
    exact reconnectLoop_retries_forever running connectOk hrun hfail fuel 5 0

/- ### Command handling (`_handle_dm` lines 196-258, `_handle_command`
lines 314-369 of devnetwork.py) -/

/-- Python `content.split(maxsplit=1)`: skip leading whitespace, take the
first whitespace-free token, drop the separating whitespace run, keep the
remainder verbatim; `none` when the text is empty or all whitespace
(callers index `parts[0]` only after a `startswith("/")` guard). -/
def pySplitMax1 (cs : List Char) : Option (List Char × List Char) :=
  match cs.dropWhile pyIsSpace with
  | [] => none
  | c :: rest =>
    some ((c :: rest).takeWhile (fun a => !pyIsSpace a),
      ((c :: rest).dropWhile (fun a => !pyIsSpace a)).dropWhile pyIsSpace)

/-- String-level wrapper for `pySplitMax1`; the second component is `""`
when Python's list has a single element (`args = parts[1] if len(parts) > 1
else ""`). -/
def pySplitMax1Str (s : String) : Option (String × String) :=
  match pySplitMax1 s.toList with
  | none => none
  | some (t, r) => some (String.mk t, String.mk r)

/-- Python `str.lower()` (the command names compared against are ASCII, on
which `Char.toLower` agrees with Python). -/
def pyLower (s : String) : String := String.mk (s.toList.map Char.toLower)

/-- Python `text.startswith(prefix)`, on the underlying character lists so
that concrete instances reduce by kernel computation. -/
def pyStartsWith (s p : String) : Bool := p.toList.isPrefixOf s.toList

/-- Externally visible side effects a command dispatch can issue. -/
inductive Effect where
  | discoverQuery : Effect
  | applyGroup : Effect
  | clearHistory : Option String → Effect
  | imagineCall : Effect
  | reviewCall : Effect
  | deepsearchCall : Effect
deriving DecidableEq, Repr

/-- Environment of one `_handle_dm` / `_handle_command` invocation: the
configuration flags, which callbacks are registered, the connector's
`_bot_info`-derived identities, and the outcomes of the external calls
(AI callbacks and the HTTP requests of the group commands), which are
abstracted as environment-supplied results. -/
structure CmdEnv where
  respond_to_dms : Bool
  bot_id : String
  bot_display : String
  rate_ok : Bool
  has_imagine_cb : Bool
  imagine_result : String → Option String
  has_review_cb : Bool
  review_result : String → String
  has_deepsearch_cb : Bool
  deepsearch_result : String → String
  has_clear_cb : Bool
  operator_id : Option String
  operator_id_bd : Option String
  groups_result : String → String
  knock_result : String → String
  knock_apply : String → List Effect
  has_message_cb : Bool
  message_cb_result : Option String
  message_cb_raises : Bool

/-- The operator id resolution of lines 357 and 364:
`self._bot_info.get("operator_id") or self._bot_info.get("bot_data", {}).get("operator_id")`. -/
def opId (env : CmdEnv) : Option String :=
  match env.operator_id with
  | some o => some o
  | none => env.operator_id_bd

/-- The refusal returned to a non-operator by `/groups` and `/knock`
(lines 360 and 366). -/
def operatorRefusal : String :=
  "Only my operator can manage group access. Ask them to use `/groups` and `/knock` commands."

/-- `_get_help_text` (lines 454-474). -/
def helpText (botName : String) : String :=
  "**" ++ botName ++ " Commands**\n\n**Chat:** Just send me a message and I\x27ll respond!\n\n**Commands:**\n- `/help` - Show this help message\n- `/info` - Show bot information\n- `/clear` - Clear conversation history\n- `/imagine <prompt>` - Generate an image\n- `/review <url>` - Review a website\n- `/deepsearch <url>` - Deep analyze a website\n\n**Door Knocking (Group Access):**\n- `/groups` - Discover available groups\n- `/groups <search>` - Search for groups\n- `/knock <group>` - Apply to join a group\n\nPowered by [AiAssist](https://aiassist.net)"

/-- `_get_info_text` (lines 476-491). -/
def infoText (botName : String) : String :=
  "**About " ++ botName ++ "**\n\nI\x27m an AI assistant powered by AiAssist.\n\n**Capabilities:**\n- Intelligent conversation\n- Image generation\n- Website analysis\n\n**Platform:** DevNetwork\n**Engine:** Malachi the AiAS Bot\n\nLearn more at [aiassist.net](https://aiassist.net)"

/-- `_handle_command(content, user_id, is_dm, group_id)`: split off the
first token, lower-case it, and dispatch through the if/elif chain of
lines 326-369.  The return value is the reply (`none` = Python `None`,
"not a command") together with the side effects issued.  `/groups` always
issues its discovery request when the caller is the operator;
`_handle_knock_command` issues its discovery request and then
environment-determined apply effects (its HTTP responses are external). -/
def handle_command (env : CmdEnv) (content : String) (user_id : String)
    (is_dm : Bool) (group_id : Option String) : Option String × List Effect :=
  match pySplitMax1Str content with
  | none => (none, [])
  | some (tok, args) =>
    let command := pyLower tok
    if command = "/help" then (some (helpText env.bot_display), [])
    else if command = "/info" then (some (infoText env.bot_display), [])
    else if command = "/clear" then
      (some "Conversation history cleared.",
        if env.has_clear_cb then
          [Effect.clearHistory (if is_dm then some ("dm:" ++ user_id) else group_id)]
        else [])
    else if command = "/imagine" ∧ args ≠ "" then
      if env.has_imagine_cb then
        match env.imagine_result args with
        | some url =>
          (some ("**Generated Image**\n\n" ++ args ++ "\n\n![Image](" ++ url ++ ")"),
            [Effect.imagineCall])
        | none => (some "Failed to generate image. Please try again.", [Effect.imagineCall])
      else (some "Image generation not available.", [])
    else if command = "/review" ∧ args ≠ "" then
      if env.has_review_cb then (some (env.review_result args), [Effect.reviewCall])
      else (some "Website review not available.", [])
    else if command = "/deepsearch" ∧ args ≠ "" then
      if env.has_deepsearch_cb then (some (env.deepsearch_result args), [Effect.deepsearchCall])
      else (some "Deep search not available.", [])
    else if command = "/groups" then
      if some user_id ≠ opId env then (some operatorRefusal, [])
      else (some (env.groups_result args), [Effect.discoverQuery])
    else if command = "/knock" ∧ args ≠ "" then
      if some user_id ≠ opId env then (some operatorRefusal, [])
      else (some (env.knock_result args), Effect.discoverQuery :: env.knock_apply args)
    else (none, [])

/-- Result of one `_handle_dm` invocation: the DMs sent back, whether the
conversational `_message_callback` was invoked, and the side effects. -/
structure DmResult where
  sent : List (String × String)
  invokedMessageCallback : Bool
  effects : List Effect
deriving DecidableEq, Repr

/-- `_handle_dm(data)` (lines 196-258) for a message of `sender_id` and
text `content`: config guard, self-message guard, rate-limit guard, then —
for text starting with `/` — the inline `/imagine` special case followed by
`_handle_command`, with an unconditional `return` at the end of the command
branch (line 235); only non-`/` text reaches `_message_callback`, whose
exception (if any) is caught at line 255. -/
def handle_dm (env : CmdEnv) (sender_id content : String) : DmResult :=
  if env.respond_to_dms = false then ⟨[], false, []⟩
  else if sender_id = env.bot_id then ⟨[], false, []⟩
  else if env.rate_ok = false then ⟨[], false, []⟩
  else if pyStartsWith content "/" then
    match pySplitMax1Str content with
    | none => ⟨[], false, []⟩
    | some (tok, args) =>
      if pyLower tok = "/imagine" ∧ args ≠ "" ∧ env.has_imagine_cb = true then
        match env.imagine_result args with
        | some _ => ⟨[(sender_id, "**" ++ args ++ "**")], false, [Effect.imagineCall]⟩
        | none =>
          ⟨[(sender_id, "Failed to generate image. Please try again.")], false,
            [Effect.imagineCall]⟩
      else
        match handle_command env content sender_id true none with
        | (some r, effs) => ⟨[(sender_id, r)], false, effs⟩
        | (none, effs) => ⟨[], false, effs⟩
  else if env.has_message_cb then
    if env.message_cb_raises then ⟨[], true, []⟩
    else
      match env.message_cb_result with
      | some r => ⟨[(sender_id, r)], true, []⟩
      | none => ⟨[], true, []⟩
  else ⟨[], false, []⟩

/-- A fully populated environment used by concrete instances: every
callback registered, rate limit open, operator id `"op-1"`. -/
def demoEnv : CmdEnv where
  respond_to_dms := true
  bot_id := "bot-1"
  bot_display := "Malachi"
  rate_ok := true
  has_imagine_cb := true
  imagine_result := fun _ => none
  has_review_cb := true
  review_result := fun _ => "review text"
  has_deepsearch_cb := true
  deepsearch_result := fun _ => "deep text"
  has_clear_cb := true
  operator_id := some "op-1"
  operator_id_bd := none
  groups_result := fun _ => "group list"
  knock_result := fun _ => "knock reply"
  knock_apply := fun _ => [Effect.applyGroup]
  has_message_cb := true
  message_cb_result := some "chat reply"
  message_cb_raises := false

/-- The command names recognized by the if/elif chain of `_handle_command`. -/
def commandNames : List String :=
  ["/help", "/info", "/clear", "/imagine", "/review", "/deepsearch", "/groups", "/knock"]

/-- C4 counterexample: the DM `"/frobnicate hello"` (leading command marker,
unrecognized first token) under a fully configured connector.
`_handle_command` does report "not a command" (returns `None`), but
`_handle_dm` then hits the unconditional `return` of its command branch
(line 235): nothing is sent and the conversational `_message_callback` —
registered (`has_message_cb = true`) — is never invoked, so the message
does not fall through to conversational handling as the claim states. -/
theorem handle_dm_unknown_command_counterexample :
    handle_dm demoEnv "user-7" "/frobnicate hello" = ⟨[], false, []⟩
    ∧ (handle_command demoEnv "/frobnicate hello" "user-7" true none).1 = none
    ∧ demoEnv.has_message_cb = true :=
  ⟨by decide, by decide, rfl⟩

/-- C4 (amended): for every inbound DM whose text begins with the command
marker but whose first whitespace-delimited token, lower-cased, is not a
recognized command name, `_handle_command` reports "not a command"
(returns `None`) and `_handle_dm` then returns without sending anything,
without issuing any side effect, and without invoking the conversational
message callback: the message is dropped rather than falling through to
conversational handling. -/
theorem handle_dm_unknown_command_dropped (env : CmdEnv) (sender content tok args : String)
    (hdms : env.respond_to_dms = true)
    (hown : sender ≠ env.bot_id)
    (hrate : env.rate_ok = true)
    (hslash : pyStartsWith content "/" = true)
    (hsplit : pySplitMax1Str content = some (tok, args))
    (hunk : pyLower tok ∉ commandNames) :
    handle_dm env sender content = ⟨[], false, []⟩
    ∧ (handle_command env content sender true none).1 = none := by
  have hname : ∀ s, s ∈ commandNames → pyLower tok ≠ s := by
    intro s hs he
    rw [← he] at hs
    exact hunk hs
  have h1 := hname "/help" (by decide)
  have h2 := hname "/info" (by decide)
  have h3 := hname "/clear" (by decide)
  have h4 := hname "/imagine" (by decide)
  have h5 := hname "/review" (by decide)
  have h6 := hname "/deepsearch" (by decide)
  have h7 := hname "/groups" (by decide)
  have h8 := hname "/knock" (by decide)
  have hc : handle_command env content sender true none = (none, []) := by
    unfold handle_command
    rw [hsplit]
    simp [h1, h2, h3, h4, h5, h6, h7, h8]
  constructor
  · unfold handle_dm
    rw [if_neg (by simp [hdms]), if_neg hown, if_neg (by simp [hrate]), if_pos hslash, hsplit]
    simp [h4, hc]
  · rw [hc]

theorem handle_dm_unknown_command_dropped_witness :
    (demoEnv.respond_to_dms = true
      ∧ "user-7" ≠ demoEnv.bot_id
      ∧ demoEnv.rate_ok = true
      ∧ pyStartsWith "/frobnicate hi" "/" = true
      ∧ pySplitMax1Str "/frobnicate hi" = some ("/frobnicate", "hi")
      ∧ pyLower "/frobnicate" ∉ commandNames)
    ∧ handle_dm demoEnv "user-7" "/frobnicate hi" = ⟨[], false, []⟩ :=
  ⟨⟨rfl, by decide, rfl, by decide, by decide, by decide⟩,
    (handle_dm_unknown_command_dropped demoEnv "user-7" "/frobnicate hi" "/frobnicate" "hi"
      rfl (by decide) rfl (by decide) (by decide) (by decide)).1⟩

/-- C9: when `/groups` (any arguments) or `/knock` (with its required
argument) is dispatched for a user id that differs from the connector's
resolved operator id, `_handle_command` returns the polite refusal string
and issues no side effect: in particular no group-discovery request and no
group application. -/
theorem handle_command_nonoperator_refusal (env : CmdEnv) (content user_id tok args : String)
    (is_dm : Bool) (group_id : Option String)
    (hsplit : pySplitMax1Str content = some (tok, args))
    (hop : some user_id ≠ opId env)
    (hcmd : pyLower tok = "/groups" ∨ (pyLower tok = "/knock" ∧ args ≠ "")) :
    handle_command env content user_id is_dm group_id = (some operatorRefusal, []) := by
  unfold handle_command
  rw [hsplit]
  rcases hcmd with h | ⟨h, ha⟩
  · simp [h, hop]
  · simp [h, ha, hop]

theorem handle_command_nonoperator_refusal_witness :
    (pySplitMax1Str "/knock devs" = some ("/knock", "devs")
      ∧ some "user-7" ≠ opId demoEnv
      ∧ (pyLower "/knock" = "/groups" ∨ (pyLower "/knock" = "/knock" ∧ "devs" ≠ "")))
    ∧ handle_command demoEnv "/knock devs" "user-7" false (some "g1")
        = (some operatorRefusal, []) :=
  ⟨⟨by decide, by decide, Or.inr ⟨by decide, by decide⟩⟩,
    handle_command_nonoperator_refusal demoEnv "/knock devs" "user-7" "/knock" "devs"
      false (some "g1") (by decide) (by decide) (Or.inr ⟨by decide, by decide⟩)⟩

/- ### `connect` (devnetwork.py lines 53-121) -/

/-- Connector state as observable through the handler's attributes:
whether a live listen task exists, whether `self._ws` is assigned and the
socket open, whether the HTTP session is open, whether `_bot_info` is set,
and the `_is_connected` / `_running` flags. -/
structure ConnState where
  listen_alive : Bool
  ws_assigned : Bool
  ws_open : Bool
  session_open : Bool
  bot_info_set : Bool
  is_connected : Bool
  running : Bool
deriving DecidableEq, Repr

/-- Outcome of the WebSocket authentication acknowledgement frame
(`receive_json()` at line 97 — note the source awaits it with no timeout). -/
inductive AuthAck where
  | ackSuccess : AuthAck
  | ackRejected : AuthAck
deriving DecidableEq, Repr

/-- Outcomes of the external I/O steps of one `connect()` attempt. -/
structure ConnectEnv where
  http_client_err : Bool
  http_ok : Bool
  ws_connect_ok : Bool
  auth_ack : AuthAck
  subscribe_acks : List Bool
deriving DecidableEq, Repr

/-- How `connect()` returned, mirroring its raise sites: the aiohttp client
error of line 82, the non-200 of lines 75-79, a `ws_connect` failure, the
auth rejection raised at line 99 (re-raised at line 121), or success. -/
inductive ConnectResult where
  | ok : ConnectResult
  | unreachable : ConnectResult
  | authHttpFailed : ConnectResult
  | wsConnectFailed : ConnectResult
  | wsAuthRejected : ConnectResult
deriving DecidableEq, Repr

/-- One `connect()` call (lines 53-121), embedded as straight-line code
under the `_reconnect_lock`.  Returns the final state, the result, and the
sequence of connector states observable at each `await` suspension point:
cancel-and-await of a previous listen task, close of a half-open socket,
the HTTP identity fetch, `ws_connect`, the auth send/receive, one state per
subscription exchange (lines 106-115; their acks only affect logging), and
the final state.  `_is_connected` and `_running` are set at lines 102-103,
right after the auth ack and before the subscription loop; the listen task
is created at line 117. -/
def connect (env : ConnectEnv) (st : ConnState) : ConnState × ConnectResult × List ConnState :=
  let s1 := { st with listen_alive := false }
  let s2 := { s1 with ws_open := false }
  let s3 := { s2 with session_open := true }
  if env.http_client_err then (s3, ConnectResult.unreachable, [s1, s2, s3])
  else if env.http_ok = false then (s3, ConnectResult.authHttpFailed, [s1, s2, s3])
  else
    let s4 := { s3 with bot_info_set := true }
    if env.ws_connect_ok = false then (s4, ConnectResult.wsConnectFailed, [s1, s2, s3, s4])
    else
      let s5 := { s4 with ws_assigned := true, ws_open := true }
      match env.auth_ack with
      | AuthAck.ackRejected => (s5, ConnectResult.wsAuthRejected, [s1, s2, s3, s4, s5, s5])
      | AuthAck.ackSuccess =>
        let s6 := { s5 with is_connected := true, running := true }
        let s7 := { s6 with listen_alive := true }
        (s7, ConnectResult.ok, [s1, s2, s3, s4, s5, s5] ++ env.subscribe_acks.map (fun _ => s6) ++ [s7])

/-- The all-false starting state of a freshly constructed handler. -/
def initialConnState : ConnState :=
  ⟨false, false, false, false, false, false, false⟩

/-- An environment in which every step succeeds and one approved group is
subscribed. -/
def envOneGroup : ConnectEnv :=
  ⟨false, true, true, AuthAck.ackSuccess, [true]⟩

/-- An environment in which the WebSocket authentication is answered with a
negative acknowledgement. -/
def envAuthRejected : ConnectEnv :=
  ⟨false, true, true, AuthAck.ackRejected, []⟩

/-- C5 counterexample: run `connect()` from the fresh state with the auth
ack negative.  The attempt fails with a surfaced error (the exception is
re-raised at line 121), but the WebSocket opened for this attempt is NOT
torn down: the final state still has the socket assigned and open — partial
connection state survives the failed attempt (it is only closed by the
preamble of the next `connect()` call, lines 64-65).  Also, the source has
no timeout at all around the auth `receive_json()`. -/
theorem connect_auth_rejected_counterexample :
    (connect envAuthRejected initialConnState).2.1 = ConnectResult.wsAuthRejected
    ∧ (connect envAuthRejected initialConnState).1.ws_open = true
    ∧ (connect envAuthRejected initialConnState).1.ws_assigned = true := by
  exact ⟨rfl, rfl, rfl⟩

/-- C5 (amended): when the WebSocket authentication receives a negative
acknowledgement, the connect attempt fails with a surfaced error and no
listen task is started and `_is_connected` stays false — but the transport
opened for that attempt is not torn down by that attempt: the socket
remains assigned and open, and it is the preamble of the next `connect()`
call that closes it (second observable state of any subsequent attempt).
The source awaits the acknowledgement without any timeout. -/
theorem connect_auth_rejected_spec (env env2 : ConnectEnv) (st : ConnState)
    (hws : env.ws_connect_ok = true) (hhttp : env.http_ok = true)
    (hce : env.http_client_err = false) (hack : env.auth_ack = AuthAck.ackRejected)
    (hic : st.is_connected = false) :
    (connect env st).2.1 = ConnectResult.wsAuthRejected
    ∧ (connect env st).1.ws_open = true
    ∧ (connect env st).1.ws_assigned = true
    ∧ (connect env st).1.is_connected = false
    ∧ (connect env st).1.listen_alive = false
    ∧ ((connect env2 (connect env st).1).2.2.getD 1 initialConnState).ws_open = false := by
  rcases env with ⟨ce, ok, ws, ack, subs⟩
  obtain rfl : ws = true := hws
  obtain rfl : ok = true := hhttp
  obtain rfl : ce = false := hce
  obtain rfl : ack = AuthAck.ackRejected := hack
  refine ⟨rfl, rfl, rfl, hic, rfl, ?_⟩
  rcases env2 with ⟨ce2, ok2, ws2, ack2, subs2⟩
  cases ce2 <;> cases ok2 <;> cases ws2 <;> cases ack2 <;> rfl

theorem connect_auth_rejected_spec_witness :
    (envAuthRejected.ws_connect_ok = true
      ∧ envAuthRejected.http_ok = true
      ∧ envAuthRejected.http_client_err = false
      ∧ envAuthRejected.auth_ack = AuthAck.ackRejected
      ∧ initialConnState.is_connected = false)
    ∧ (connect envAuthRejected initialConnState).1.ws_open = true
    ∧ ((connect envOneGroup (connect envAuthRejected initialConnState).1).2.2.getD 1
        initialConnState).ws_open = false :=
  ⟨⟨rfl, rfl, rfl, rfl, rfl⟩,
    (connect_auth_rejected_spec envAuthRejected envOneGroup initialConnState
      rfl rfl rfl rfl rfl).2.1,
    (connect_auth_rejected_spec envAuthRejected envOneGroup initialConnState
      rfl rfl rfl rfl rfl).2.2.2.2.2⟩

/-- C6 counterexample: a fully successful `connect()` from the fresh state
with one approved group.  The observable state at the subscription-exchange
suspension point has `_is_connected = true` while no listen task exists:
`_is_connected` is set at line 102, before the subscription phase runs and
before the listen-loop task is created at line 117 — contradicting the
claim that it becomes true only at the Subscribing → Connected transition. -/
theorem connect_early_connected_counterexample :
    ∃ s ∈ (connect envOneGroup initialConnState).2.2,
      s.is_connected = true ∧ s.listen_alive = false := by
  decide

/-- C6 (amended): `_is_connected` becomes true immediately after the auth
acknowledgement — at entry to the subscription phase — not at its end:
whenever the connect sequence succeeds and at least one approved group is
subscribed, some state observable at an `await` suspension point has
`_is_connected = true` while no listen task exists; the listen task exists
(together with `_is_connected`) in the final state. -/
theorem connect_connected_before_listen (env : ConnectEnv) (st : ConnState)
    (hws : env.ws_connect_ok = true) (hhttp : env.http_ok = true)
    (hce : env.http_client_err = false) (hack : env.auth_ack = AuthAck.ackSuccess)
    (hsub : env.subscribe_acks ≠ []) :
    (∃ s ∈ (connect env st).2.2, s.is_connected = true ∧ s.listen_alive = false)
    ∧ (connect env st).2.1 = ConnectResult.ok
    ∧ (connect env st).1.is_connected = true
    ∧ (connect env st).1.listen_alive = true := by
  rcases env with ⟨ce, ok, ws, ack, subs⟩
  obtain rfl : ws = true := hws
  obtain rfl : ok = true := hhttp
  obtain rfl : ce = false := hce
  obtain rfl : ack = AuthAck.ackSuccess := hack
  refine ⟨?_, rfl, rfl, rfl⟩
  cases subs with
  | nil => exact absurd rfl hsub
  | cons b bs =>
    exact ⟨⟨false, true, true, true, true, true, true⟩,
      List.mem_append.mpr (Or.inl (List.mem_append.mpr (Or.inr
        (List.mem_map_of_mem _ (List.mem_cons_self b bs))))), rfl, rfl⟩

theorem connect_connected_before_listen_witness :
    (envOneGroup.ws_connect_ok = true
      ∧ envOneGroup.http_ok = true
      ∧ envOneGroup.http_client_err = false
      ∧ envOneGroup.auth_ack = AuthAck.ackSuccess
      ∧ envOneGroup.subscribe_acks ≠ [])
    ∧ (connect envOneGroup initialConnState).2.1 = ConnectResult.ok
    ∧ (connect envOneGroup initialConnState).1.listen_alive = true :=
  ⟨⟨rfl, rfl, rfl, rfl, by decide⟩,
    (connect_connected_before_listen envOneGroup initialConnState
      rfl rfl rfl rfl (by decide)).2.1,
    (connect_connected_before_listen envOneGroup initialConnState
      rfl rfl rfl rfl (by decide)).2.2.2⟩
